import Mathlib

set_option autoImplicit false

/-!
Verification of the core of britannio/foundership-time-tracker
(src/src-tauri/src/main.rs): a daily connection log stored in a SQLite
table (one row per date, `earliest`/`latest` time strings), an upsert
performed by `insert_connection`, a date-descending read performed by
`get_connection_log`, and a WiFi sampler loop (`check_wifi_connection`,
`get_current_wifi_ssid`, the background loop in `main`).

The SQLite table and its SQL statements are shallowly embedded: a table
state is a list of rows, SQLite BINARY text collation is bytewise
lexicographic comparison (on the ASCII data appearing here this equals
codepoint-lexicographic comparison of the character lists), and the SQL
MIN/MAX scalar functions and ORDER BY are defined from that comparison.
-/

namespace TimeTracker

/-- Row of the `connections` table, mirroring the Rust struct
`ConnectionLog { date, earliest, latest }` (main.rs lines 12-17). -/
structure ConnectionLog where
  date : String
  earliest : String
  latest : String
deriving DecidableEq, Repr

/-- A state of the `connections` table: its rows.  The `date TEXT PRIMARY
KEY` constraint (main.rs lines 100-104) is stated separately as
`WellFormed` below. -/
abbrev Store := List ConnectionLog

/-- SQLite BINARY collation on text, as used by comparisons in `MIN`,
`MAX` and `ORDER BY`: lexicographic comparison of the underlying
sequences (bytewise on UTF-8; identical to codepoint order, which for
the ASCII dates and times stored here is the same order). -/
def charsLe : List Char → List Char → Bool
  | [], _ => true
  | _ :: _, [] => false
  | a :: as, b :: bs => if a < b then true else if b < a then false else charsLe as bs

/-- BINARY-collation comparison lifted to `String`. -/
def strLe (a b : String) : Bool := charsLe a.data b.data

/-- SQLite scalar function `MIN(X,Y)` on the text values stored here. -/
def sqliteMin (a b : String) : String := if strLe a b then a else b

/-- SQLite scalar function `MAX(X,Y)` on the text values stored here. -/
def sqliteMax (a b : String) : String := if strLe a b then b else a

/-- Lookup of the row for a date, as SQLite resolves the
`ON CONFLICT(date)` clause against the `date` primary key. -/
def findRecord (d : String) : Store → Option ConnectionLog
  | [] => none
  | r :: rs => if r.date = d then some r else findRecord d rs

/-- The SQL upsert run by `insert_connection` (main.rs lines 157-165):
INSERT INTO connections (date, earliest, latest) VALUES (?1, ?2, ?2)
ON CONFLICT(date) DO UPDATE SET earliest = MIN(earliest, ?2),
latest = MAX(latest, ?2).  A new row is appended when no row has the
given date; otherwise the existing row is updated in place, both SET
expressions reading the original row. -/
def insert_connection (date time : String) : Store → Store
  | [] => [⟨date, time, time⟩]
  | r :: rs =>
    if r.date = date then
      ⟨r.date, sqliteMin r.earliest time, sqliteMax r.latest time⟩ :: rs
    else
      r :: insert_connection date time rs

/-- Descending insertion by `date` under BINARY collation, used to give
the result of `ORDER BY date DESC` in `get_connection_log`. -/
def insertDesc (r : ConnectionLog) : List ConnectionLog → List ConnectionLog
  | [] => [r]
  | x :: xs => if strLe x.date r.date then r :: x :: xs else x :: insertDesc r xs

/-- The query run by `get_connection_log` (main.rs lines 110-122):
SELECT date, earliest, latest FROM connections ORDER BY date DESC. -/
def get_connection_log (db : Store) : List ConnectionLog :=
  db.foldr insertDesc []

/-- Result of executing the `networksetup -getairportnetwork en0`
command: exit status and captured streams (main.rs lines 133-136). -/
structure CmdOutput where
  success : Bool
  stdout : String
  stderr : String
deriving DecidableEq, Repr

/-- Whitespace test used by trimming (Rust `str::trim`), restricted to
the ASCII whitespace that can occur in `networksetup` output. -/
def isWS (c : Char) : Bool := c == ' ' || c == '\n' || c == '\t' || c == '\r'

/-- Rust `str::trim`: remove leading and trailing whitespace. -/
def trimChars (l : List Char) : List Char :=
  ((l.dropWhile isWS).reverse.dropWhile isWS).reverse

/-- Rust `stdout.split(": ")`: split at each leftmost non-overlapping
occurrence of the two-character pattern `": "`, accumulating the current
fragment in reverse in the second argument. -/
def splitCS : List Char → List Char → List (List Char)
  | [], acc => [acc.reverse]
  | ':' :: ' ' :: rest, acc => acc.reverse :: splitCS rest []
  | c :: rest, acc => splitCS rest (c :: acc)

/-- The SSID extraction in `get_current_wifi_ssid` (main.rs line 141):
`stdout.split(": ").nth(1).map(|s| s.trim().to_string())`. -/
def parse_ssid (stdout : String) : Option String :=
  ((splitCS stdout.data []).get? 1).map (fun l => String.mk (trimChars l))

/-- Outcome of `get_current_wifi_ssid` (main.rs lines 131-149).  The Rust
function calls `.output().expect(...)`, so when the command cannot be
executed at all the function panics instead of returning. -/
inductive SsidQuery where
  | panicked (msg : String)
  | result (ssid : Option String)
deriving DecidableEq, Repr

/-- `get_current_wifi_ssid` (main.rs lines 131-149), as a function of the
outcome of running the `networksetup` command: `none` models
`Command::output()` returning `Err` (command unavailable / failed to
execute), which the `.expect` turns into a panic; on a run with
non-success exit status the error is printed and `None` is returned; on
success the stdout is parsed. -/
def get_current_wifi_ssid (cmd : Option CmdOutput) : SsidQuery :=
  match cmd with
  | none => .panicked "Failed to execute networksetup command"
  | some o => if o.success then .result (parse_ssid o.stdout) else .result none

/-- The hard-coded target network name (main.rs line 171). -/
def target_ssid : String := "eduroam"

/-- Result of one call of `check_wifi_connection` (main.rs lines 170-183):
`ok` models `Ok(())` (with the table state after the call), `err` models
`Err(msg)` returned when the storage operation fails, and `panicked`
models the panic escaping from `get_current_wifi_ssid`. -/
inductive StepResult where
  | ok (db : Store)
  | err (db : Store) (msg : String)
  | panicked (msg : String)
deriving DecidableEq, Repr

/-- `check_wifi_connection` (main.rs lines 170-183) followed by the SQL
of `insert_connection`: query the SSID; on a parsed name equal to
`target_ssid` run the upsert with the current date and time, where
`storageErr = some e` models `db.execute` failing with error text `e`
(then the table is unchanged and `Err(e)` is returned); otherwise no
action is taken and `Ok(())` is returned. -/
def check_wifi_connection (cmd : Option CmdOutput) (storageErr : Option String)
    (date time : String) (db : Store) : StepResult :=
  match get_current_wifi_ssid cmd with
  | .panicked m => .panicked m
  | .result none => .ok db
  | .result (some s) =>
    if s = target_ssid then
      match storageErr with
      | none => .ok (insert_connection date time db)
      | some e => .err db e
    else .ok db

/-- The environment of one iteration of the background loop (main.rs
lines 38-48): the outcome of the OS command, whether the storage
operation would fail this tick, and the current local date and time. -/
structure TickInput where
  cmd : Option CmdOutput
  storageErr : Option String
  date : String
  time : String
deriving DecidableEq, Repr

/-- The background loop spawned in `main` (main.rs lines 38-48), run over
a finite list of tick environments.  Each iteration calls
`check_wifi_connection`; an `Err` is printed with `eprintln!` and the
loop continues; a panic unwinds and terminates the spawned thread, so no
further tick runs.  Returns the final table state, the number of
iterations that executed the OS query, and the panic message if the
thread died. -/
def run_loop : List TickInput → Store → Store × Nat × Option String
  | [], db => (db, 0, none)
  | inp :: rest, db =>
    match check_wifi_connection inp.cmd inp.storageErr inp.date inp.time db with
    | .ok db2 =>
      let r := run_loop rest db2
      (r.1, r.2.1 + 1, r.2.2)
    | .err db2 _ =>
      let r := run_loop rest db2
      (r.1, r.2.1 + 1, r.2.2)
    | .panicked m => (db, 1, some m)

/-- Decimal digit character, codepoint 48 + n for n < 10. -/
def digitChar (n : Nat) : Char := Char.ofNat (48 + n)

/-- The chrono format string "%H:%M" (main.rs line 154): zero-padded
two-digit 24-hour hour, a colon, zero-padded two-digit minute. -/
def fmtTime (h m : Nat) : String :=
  String.mk [digitChar (h / 10), digitChar (h % 10), ':',
             digitChar (m / 10), digitChar (m % 10)]

/-- Applying the upsert for one date to a whole list of sampled times in
order. -/
def applyTimes (d : String) (ts : List String) (db : Store) : Store :=
  ts.foldl (fun db t => insert_connection d t db) db

/-- Applying a list of (date, time) upserts to the empty table: the
states reachable from a fresh database. -/
def applyOps (ops : List (String × String)) : Store :=
  ops.foldl (fun db p => insert_connection p.1 p.2 db) []

/-- The table invariant: the `date TEXT PRIMARY KEY` constraint (at most
one row per date) together with `earliest <= latest` under BINARY
collation on every row. -/
def WellFormed (db : Store) : Prop :=
  (db.map ConnectionLog.date).Nodup ∧ ∀ r ∈ db, strLe r.earliest r.latest = true

theorem charsLe_refl (l : List Char) : charsLe l l = true := by
  induction l with
  | nil => rfl
  | cons a as ih => simp [charsLe, lt_irrefl, ih]

theorem charsLe_total (a b : List Char) : charsLe a b = true ∨ charsLe b a = true := by
  induction a generalizing b with
  | nil => left; rfl
  | cons x xs ih =>
    cases b with
    | nil => right; rfl
    | cons y ys =>
      by_cases h1 : x < y
      · left; simp [charsLe, h1]
      · by_cases h2 : y < x
        · right; simp [charsLe, h2]
        · have hxy : x = y := le_antisymm (not_lt.mp h2) (not_lt.mp h1)
          subst hxy
          rcases ih ys with h | h
          · left; simp [charsLe, lt_irrefl, h]
          · right; simp [charsLe, lt_irrefl, h]

theorem charsLe_trans {a b c : List Char} (h1 : charsLe a b = true)
    (h2 : charsLe b c = true) : charsLe a c = true := by
  induction a generalizing b c with
  | nil => rfl
  | cons x xs ih =>
    cases b with
    | nil => simp [charsLe] at h1
    | cons y ys =>
      cases c with
      | nil => simp [charsLe] at h2
      | cons z zs =>
        simp only [charsLe] at h1 h2 ⊢
        rcases lt_trichotomy x y with hxy | hxy | hxy
        · rcases lt_trichotomy y z with hyz | hyz | hyz
          · simp [lt_trans hxy hyz]
          · subst hyz; simp [hxy]
          · rw [if_neg (asymm hyz), if_pos hyz] at h2; cases h2
        · subst hxy
          rw [if_neg (lt_irrefl x), if_neg (lt_irrefl x)] at h1
          rcases lt_trichotomy x z with hyz | hyz | hyz
          · simp [hyz]
          · subst hyz
            rw [if_neg (lt_irrefl x), if_neg (lt_irrefl x)] at h2 ⊢
            exact ih h1 h2
          · rw [if_neg (asymm hyz), if_pos hyz] at h2; cases h2
        · rw [if_neg (asymm hxy), if_pos hxy] at h1; cases h1

theorem charsLe_antisymm {a b : List Char} (h1 : charsLe a b = true)
    (h2 : charsLe b a = true) : a = b := by
  induction a generalizing b with
  | nil =>
    cases b with
    | nil => rfl
    | cons y ys => simp [charsLe] at h2
  | cons x xs ih =>
    cases b with
    | nil => simp [charsLe] at h1
    | cons y ys =>
      simp only [charsLe] at h1 h2
      rcases lt_trichotomy x y with hxy | hxy | hxy
      · rw [if_neg (asymm hxy), if_pos hxy] at h2; cases h2
      · subst hxy
        rw [if_neg (lt_irrefl x), if_neg (lt_irrefl x)] at h1 h2
        rw [ih h1 h2]
      · rw [if_neg (asymm hxy), if_pos hxy] at h1; cases h1

theorem strLe_refl (a : String) : strLe a a = true := charsLe_refl a.data

theorem strLe_total (a b : String) : strLe a b = true ∨ strLe b a = true :=
  charsLe_total a.data b.data

theorem strLe_trans {a b c : String} (h1 : strLe a b = true)
    (h2 : strLe b c = true) : strLe a c = true := charsLe_trans h1 h2

theorem strLe_antisymm {a b : String} (h1 : strLe a b = true)
    (h2 : strLe b a = true) : a = b :=
  congrArg String.mk (charsLe_antisymm h1 h2)

theorem strLe_of_not {a b : String} (h : strLe a b = false) : strLe b a = true := by
  rcases strLe_total a b with h1 | h1
  · rw [h] at h1; cases h1
  · exact h1

theorem sqliteMin_comm (a b : String) : sqliteMin a b = sqliteMin b a := by
  unfold sqliteMin
  cases h1 : strLe a b with
  | false =>
    cases h2 : strLe b a with
    | false => rw [strLe_of_not h1] at h2; cases h2
    | true => simp
  | true =>
    cases h2 : strLe b a with
    | false => simp
    | true => simp [strLe_antisymm h1 h2]

theorem sqliteMax_comm (a b : String) : sqliteMax a b = sqliteMax b a := by
  unfold sqliteMax
  cases h1 : strLe a b with
  | false =>
    cases h2 : strLe b a with
    | false => rw [strLe_of_not h1] at h2; cases h2
    | true => simp
  | true =>
    cases h2 : strLe b a with
    | false => simp
    | true => simp [strLe_antisymm h1 h2]

theorem sqliteMin_assoc (a b c : String) :
    sqliteMin (sqliteMin a b) c = sqliteMin a (sqliteMin b c) := by
  unfold sqliteMin
  by_cases hab : strLe a b = true
  · by_cases hbc : strLe b c = true
    · simp [hab, hbc, strLe_trans hab hbc]
    · simp [hab, hbc]
  · by_cases hbc : strLe b c = true
    · simp [hab, hbc]
    · have hac : strLe a c = false := by
        cases hac : strLe a c with
        | false => rfl
        | true =>
          have hcb : strLe c b = true := strLe_of_not (by
            cases h : strLe b c with
            | false => rfl
            | true => exact absurd h hbc)
          have : strLe a b = true := strLe_trans hac hcb
          exact absurd this hab
      simp [hab, hbc, hac]

theorem strLe_of_not_le {a b : String} (h : ¬ strLe a b = true) : strLe b a = true := by
  cases hh : strLe a b with
  | false => exact strLe_of_not hh
  | true => exact absurd hh h

theorem sqliteMax_assoc (a b c : String) :
    sqliteMax (sqliteMax a b) c = sqliteMax a (sqliteMax b c) := by
  unfold sqliteMax
  by_cases hab : strLe a b = true
  · by_cases hbc : strLe b c = true
    · simp [hab, hbc, strLe_trans hab hbc]
    · simp [hab, hbc]
  · by_cases hbc : strLe b c = true
    · simp [hab, hbc]
    · have hac : strLe a c = false := by
        cases hac : strLe a c with
        | false => rfl
        | true =>
          have hba : strLe b a = true := strLe_of_not_le hab
          have hcb : strLe c b = true := strLe_of_not_le hbc
          have hca : a = c := strLe_antisymm hac (strLe_trans hcb hba)
          rw [← hca] at hbc
          exact absurd hba hbc
      simp [hab, hbc, hac]

theorem sqliteMin_self (a : String) : sqliteMin a a = a := by
  unfold sqliteMin; simp

theorem sqliteMax_self (a : String) : sqliteMax a a = a := by
  unfold sqliteMax; simp

theorem sqliteMin_right_swap (a t1 t2 : String) :
    sqliteMin (sqliteMin a t1) t2 = sqliteMin (sqliteMin a t2) t1 := by
  rw [sqliteMin_assoc, sqliteMin_assoc, sqliteMin_comm t1 t2]

theorem sqliteMax_right_swap (a t1 t2 : String) :
    sqliteMax (sqliteMax a t1) t2 = sqliteMax (sqliteMax a t2) t1 := by
  rw [sqliteMax_assoc, sqliteMax_assoc, sqliteMax_comm t1 t2]

theorem sqliteMin_absorb (a t : String) : sqliteMin (sqliteMin a t) t = sqliteMin a t := by
  rw [sqliteMin_assoc, sqliteMin_self]

theorem sqliteMax_absorb (a t : String) : sqliteMax (sqliteMax a t) t = sqliteMax a t := by
  rw [sqliteMax_assoc, sqliteMax_self]

theorem min_le_max {a b : String} (t : String) (h : strLe a b = true) :
    strLe (sqliteMin a t) (sqliteMax b t) = true := by
  unfold sqliteMin sqliteMax
  by_cases hat : strLe a t = true
  · by_cases hbt : strLe b t = true
    · simp [hat, hbt]
    · simp [hat, hbt, h]
  · by_cases hbt : strLe b t = true
    · simp [hat, hbt, strLe_refl]
    · simp [hat, hbt, strLe_trans (strLe_of_not_le hat) h]

theorem findRecord_date {db : Store} {d : String} {r : ConnectionLog}
    (h : findRecord d db = some r) : r.date = d := by
  induction db with
  | nil => cases h
  | cons x xs ih =>
    by_cases hx : x.date = d
    · simp [findRecord, hx] at h; rw [← h]; exact hx
    · simp [findRecord, hx] at h; exact ih h

theorem findRecord_insert_none {db : Store} {d t : String}
    (h : findRecord d db = none) :
    findRecord d (insert_connection d t db) = some ⟨d, t, t⟩ := by
  induction db with
  | nil => simp [insert_connection, findRecord]
  | cons r rs ih =>
    by_cases hr : r.date = d
    · simp [findRecord, hr] at h
    · simp [findRecord, hr] at h
      simp [insert_connection, findRecord, hr, ih h]

theorem findRecord_insert_some {db : Store} {d t : String} {r : ConnectionLog}
    (h : findRecord d db = some r) :
    findRecord d (insert_connection d t db) =
      some ⟨r.date, sqliteMin r.earliest t, sqliteMax r.latest t⟩ := by
  induction db with
  | nil => cases h
  | cons x xs ih =>
    by_cases hx : x.date = d
    · simp [findRecord, hx] at h
      rw [← h]
      simp [insert_connection, findRecord, hx]
    · simp [findRecord, hx] at h
      simp [insert_connection, findRecord, hx, ih h]

theorem findRecord_insert_ne {db : Store} {d t d2 : String} (h : d2 ≠ d) :
    findRecord d2 (insert_connection d t db) = findRecord d2 db := by
  have hd : ¬ d = d2 := fun hh => h hh.symm
  induction db with
  | nil => simp [insert_connection, findRecord, hd]
  | cons r rs ih =>
    by_cases hr : r.date = d
    · simp [insert_connection, findRecord, hr, hd]
    · by_cases hr2 : r.date = d2
      · simp [insert_connection, findRecord, hr, hr2, h]
      · simp [insert_connection, findRecord, hr, hr2, ih]

theorem filter_insert_eq (db : Store) (d t : String) :
    (insert_connection d t db).filter (fun r => !decide (r.date = d)) =
      db.filter (fun r => !decide (r.date = d)) := by
  induction db with
  | nil => simp [insert_connection]
  | cons r rs ih =>
    by_cases hr : r.date = d
    · simp [insert_connection, hr, List.filter]
    · simp [insert_connection, hr, List.filter, ih]

theorem insert_connection_swap (d t1 t2 : String) (db : Store) :
    insert_connection d t1 (insert_connection d t2 db) =
      insert_connection d t2 (insert_connection d t1 db) := by
  induction db with
  | nil =>
    simp [insert_connection, sqliteMin_comm t2 t1, sqliteMax_comm t2 t1]
  | cons r rs ih =>
    by_cases hr : r.date = d
    · simp [insert_connection, hr, sqliteMin_right_swap, sqliteMax_right_swap]
    · simp [insert_connection, hr, ih]

theorem applyTimes_cons (d t : String) (ts : List String) (db : Store) :
    applyTimes d (t :: ts) db = applyTimes d ts (insert_connection d t db) := rfl

theorem applyTimes_perm {ts ts2 : List String} (d : String)
    (p : List.Perm ts ts2) : ∀ db : Store, applyTimes d ts db = applyTimes d ts2 db := by
  induction p with
  | nil => intro db; rfl
  | cons x _ ih =>
    intro db
    rw [applyTimes_cons, applyTimes_cons, ih]
  | swap x y l =>
    intro db
    rw [applyTimes_cons, applyTimes_cons, applyTimes_cons, applyTimes_cons,
      insert_connection_swap]
  | trans _ _ ih1 ih2 =>
    intro db
    rw [ih1, ih2]

theorem applyTimes_find {d : String} : ∀ (ts : List String) (db : Store) (a b : String),
    findRecord d db = some ⟨d, a, b⟩ →
    findRecord d (applyTimes d ts db) =
      some ⟨d, ts.foldl sqliteMin a, ts.foldl sqliteMax b⟩ := by
  intro ts
  induction ts with
  | nil => intro db a b h; exact h
  | cons t ts ih =>
    intro db a b h
    rw [applyTimes_cons]
    have h2 := findRecord_insert_some (t := t) h
    simp only [List.foldl]
    exact ih (insert_connection d t db) (sqliteMin a t) (sqliteMax b t) h2

theorem findRecord_none_not_mem {db : Store} {d : String}
    (h : findRecord d db = none) : d ∉ db.map ConnectionLog.date := by
  induction db with
  | nil => simp
  | cons r rs ih =>
    by_cases hr : r.date = d
    · simp [findRecord, hr] at h
    · simp [findRecord, hr] at h
      simp [ih h, Ne.symm hr]

theorem dates_insert (db : Store) (d t : String) :
    (insert_connection d t db).map ConnectionLog.date =
      if (findRecord d db).isSome then db.map ConnectionLog.date
      else db.map ConnectionLog.date ++ [d] := by
  induction db with
  | nil => simp [insert_connection, findRecord]
  | cons r rs ih =>
    by_cases hr : r.date = d
    · simp [insert_connection, findRecord, hr]
    · simp only [insert_connection, findRecord, hr, if_neg hr, List.map, ih]
      by_cases hf : (findRecord d rs).isSome
      · simp [hf]
      · simp [hf]

theorem insert_le_preserve {db : Store} {d t : String}
    (hle : ∀ r ∈ db, strLe r.earliest r.latest = true) :
    ∀ r ∈ insert_connection d t db, strLe r.earliest r.latest = true := by
  induction db with
  | nil =>
    intro r hr
    simp [insert_connection] at hr
    subst hr
    exact strLe_refl t
  | cons x xs ih =>
    intro r hr
    by_cases hx : x.date = d
    · simp [insert_connection, hx] at hr
      rcases hr with hr | hr
      · subst hr
        exact min_le_max t (hle x (List.mem_cons_self x xs))
      · exact hle r (List.mem_cons_of_mem x hr)
    · simp [insert_connection, hx] at hr
      rcases hr with hr | hr
      · subst hr
        exact hle r (List.mem_cons_self r xs)
      · exact ih (fun rr hrr => hle rr (List.mem_cons_of_mem x hrr)) r hr

theorem wellFormed_insert {db : Store} (d t : String) (h : WellFormed db) :
    WellFormed (insert_connection d t db) := by
  obtain ⟨hnd, hle⟩ := h
  constructor
  · rw [dates_insert]
    cases hf : findRecord d db with
    | none =>
      simp only [hf, Option.isSome_none, Bool.false_eq_true, if_false]
      rw [List.nodup_append]
      exact ⟨hnd, List.nodup_singleton d,
        fun x hx hx2 => by
          rw [List.mem_singleton] at hx2
          subst hx2
          exact findRecord_none_not_mem hf hx⟩
    | some r => simpa using hnd
  · exact insert_le_preserve hle

theorem insertDesc_perm (r : ConnectionLog) (l : List ConnectionLog) :
    List.Perm (insertDesc r l) (r :: l) := by
  induction l with
  | nil => exact List.Perm.refl [r]
  | cons x xs ih =>
    by_cases hx : strLe x.date r.date = true
    · simp [insertDesc, hx]
    · rw [show insertDesc r (x :: xs) = x :: insertDesc r xs from by simp [insertDesc, hx]]
      exact List.Perm.trans (List.Perm.cons x ih) (List.Perm.swap r x xs)

theorem get_connection_log_perm (db : Store) :
    List.Perm (get_connection_log db) db := by
  induction db with
  | nil => exact List.Perm.refl []
  | cons r rs ih =>
    exact List.Perm.trans (insertDesc_perm r (get_connection_log rs)) (List.Perm.cons r ih)

theorem insertDesc_sorted {l : List ConnectionLog} (r : ConnectionLog)
    (h : l.Pairwise (fun a b => strLe b.date a.date = true)) :
    (insertDesc r l).Pairwise (fun a b => strLe b.date a.date = true) := by
  induction l with
  | nil => simp [insertDesc]
  | cons x xs ih =>
    rw [List.pairwise_cons] at h
    by_cases hx : strLe x.date r.date = true
    · rw [show insertDesc r (x :: xs) = r :: x :: xs from by simp [insertDesc, hx]]
      rw [List.pairwise_cons]
      constructor
      · intro y hy
        rcases List.mem_cons.mp hy with hy | hy
        · rw [hy]; exact hx
        · exact strLe_trans (h.1 y hy) hx
      · rw [List.pairwise_cons]
        exact h
    · rw [show insertDesc r (x :: xs) = x :: insertDesc r xs from by simp [insertDesc, hx]]
      rw [List.pairwise_cons]
      constructor
      · intro y hy
        have hy2 : y ∈ r :: xs := (insertDesc_perm r xs).mem_iff.mp hy
        rcases List.mem_cons.mp hy2 with hy2 | hy2
        · rw [hy2]; exact strLe_of_not_le hx
        · exact h.1 y hy2
      · exact ih h.2

theorem get_connection_log_sorted (db : Store) :
    (get_connection_log db).Pairwise (fun a b => strLe b.date a.date = true) := by
  induction db with
  | nil => simp [get_connection_log]
  | cons r rs ih => exact insertDesc_sorted r ih

theorem findRecord_insert_isSome {db : Store} {d t D : String}
    (h : (findRecord D (insert_connection d t db)).isSome = true) :
    D = d ∨ (findRecord D db).isSome = true := by
  by_cases hD : D = d
  · exact Or.inl hD
  · right
    rw [findRecord_insert_ne hD] at h
    exact h

theorem run_loop_record_source :
    ∀ (ticks : List TickInput) (db : Store) (D : String),
    (findRecord D (run_loop ticks db).1).isSome = true →
    (findRecord D db).isSome = true ∨
      ∃ inp ∈ ticks, get_current_wifi_ssid inp.cmd = .result (some target_ssid) ∧
        inp.date = D := by
  intro ticks
  induction ticks with
  | nil => intro db D h; exact Or.inl h
  | cons inp rest ih =>
    intro db D h
    cases q : get_current_wifi_ssid inp.cmd with
    | panicked m =>
      have hc : check_wifi_connection inp.cmd inp.storageErr inp.date inp.time db =
          .panicked m := by
        simp [check_wifi_connection, q]
      simp only [run_loop, hc] at h
      exact Or.inl h
    | result oss =>
      cases oss with
      | none =>
        have hc : check_wifi_connection inp.cmd inp.storageErr inp.date inp.time db =
            .ok db := by
          simp [check_wifi_connection, q]
        simp only [run_loop, hc] at h
        rcases ih db D h with hl | ⟨i2, hi2, hq2⟩
        · exact Or.inl hl
        · exact Or.inr ⟨i2, List.mem_cons_of_mem inp hi2, hq2⟩
      | some s =>
        by_cases hs : s = target_ssid
        · cases se : inp.storageErr with
          | none =>
            have hc : check_wifi_connection inp.cmd inp.storageErr inp.date inp.time db =
                .ok (insert_connection inp.date inp.time db) := by
              simp [check_wifi_connection, q, hs, se]
            simp only [run_loop, hc] at h
            rcases ih (insert_connection inp.date inp.time db) D h with hl | ⟨i2, hi2, hq2⟩
            · rcases findRecord_insert_isSome hl with hD | hD
              · refine Or.inr ⟨inp, List.mem_cons_self inp rest, ?_, hD.symm⟩
                rw [q, hs]
              · exact Or.inl hD
            · exact Or.inr ⟨i2, List.mem_cons_of_mem inp hi2, hq2⟩
          | some e =>
            have hc : check_wifi_connection inp.cmd inp.storageErr inp.date inp.time db =
                .err db e := by
              simp [check_wifi_connection, q, hs, se]
            simp only [run_loop, hc] at h
            rcases ih db D h with hl | ⟨i2, hi2, hq2⟩
            · exact Or.inl hl
            · exact Or.inr ⟨i2, List.mem_cons_of_mem inp hi2, hq2⟩
        · have hc : check_wifi_connection inp.cmd inp.storageErr inp.date inp.time db =
              .ok db := by
            simp [check_wifi_connection, q, hs]
          simp only [run_loop, hc] at h
          rcases ih db D h with hl | ⟨i2, hi2, hq2⟩
          · exact Or.inl hl
          · exact Or.inr ⟨i2, List.mem_cons_of_mem inp hi2, hq2⟩

theorem digit_lt_iff : ∀ a, a < 10 → ∀ b, b < 10 →
    ((digitChar a < digitChar b) ↔ a < b) := by decide

theorem charsLe_two_digits (a b : Nat) (ha : a < 100) (hb : b < 100)
    (r1 r2 : List Char) :
    charsLe (digitChar (a / 10) :: digitChar (a % 10) :: r1)
      (digitChar (b / 10) :: digitChar (b % 10) :: r2) =
      (if a < b then true else if b < a then false else charsLe r1 r2) := by
  have h1 : a / 10 < 10 := by omega
  have h2 : b / 10 < 10 := by omega
  have h3 : a % 10 < 10 := by omega
  have h4 : b % 10 < 10 := by omega
  simp only [charsLe]
  rcases Nat.lt_trichotomy (a / 10) (b / 10) with h | h | h
  · rw [if_pos ((digit_lt_iff _ h1 _ h2).mpr h), if_pos (by omega)]
  · rw [h, if_neg (lt_irrefl _), if_neg (lt_irrefl _)]
    rcases Nat.lt_trichotomy (a % 10) (b % 10) with hm | hm | hm
    · rw [if_pos ((digit_lt_iff _ h3 _ h4).mpr hm), if_pos (by omega)]
    · rw [hm, if_neg (lt_irrefl _), if_neg (lt_irrefl _),
        if_neg (show ¬ a < b by omega), if_neg (show ¬ b < a by omega)]
    · rw [if_neg (fun hc => absurd ((digit_lt_iff _ h3 _ h4).mp hc) (by omega)),
        if_pos ((digit_lt_iff _ h4 _ h3).mpr hm),
        if_neg (show ¬ a < b by omega), if_pos (show b < a by omega)]
  · rw [if_neg (fun hc => absurd ((digit_lt_iff _ h1 _ h2).mp hc) (by omega)),
      if_pos ((digit_lt_iff _ h2 _ h1).mpr h),
      if_neg (show ¬ a < b by omega), if_pos (show b < a by omega)]

theorem charsLe_colon (r1 r2 : List Char) :
    charsLe (':' :: r1) (':' :: r2) = charsLe r1 r2 := by
  simp [charsLe]

theorem insert_connection_idem (d t : String) (db : Store) :
    insert_connection d t (insert_connection d t db) = insert_connection d t db := by
  induction db with
  | nil => simp [insert_connection, sqliteMin_self, sqliteMax_self]
  | cons r rs ih =>
    by_cases hr : r.date = d
    · simp [insert_connection, hr, sqliteMin_absorb, sqliteMax_absorb]
    · simp [insert_connection, hr, ih]

theorem iterate_insert_aux (d t : String) : ∀ (k : Nat) (db : Store),
    Nat.iterate (insert_connection d t) (k + 1) db = insert_connection d t db := by
  intro k
  induction k with
  | zero => intro db; rfl
  | succ n ih =>
    intro db
    rw [Function.iterate_succ_apply, ih, insert_connection_idem]

/-- C1: `insert_connection`'s upsert — when no row exists for the date, a
row with `earliest = latest = time` is created; when a row exists, its
`earliest` becomes `MIN(earliest, time)` and its `latest` becomes
`MAX(latest, time)` under lexicographic (BINARY) comparison of the time
strings. -/
theorem upsert_spec (db : Store) (d t : String) :
    (findRecord d db = none →
      findRecord d (insert_connection d t db) = some ⟨d, t, t⟩) ∧
    (∀ r, findRecord d db = some r →
      findRecord d (insert_connection d t db) =
        some ⟨r.date, sqliteMin r.earliest t, sqliteMax r.latest t⟩) :=
  ⟨fun h => findRecord_insert_none h, fun _ h => findRecord_insert_some h⟩

theorem upsert_spec_witness :
    (findRecord "2024-03-01" ([] : Store) = none ∧
      findRecord "2024-03-01" (insert_connection "2024-03-01" "09:00" []) =
        some ⟨"2024-03-01", "09:00", "09:00"⟩) ∧
    (findRecord "2024-03-01" [ConnectionLog.mk "2024-03-01" "09:00" "09:00"] =
        some ⟨"2024-03-01", "09:00", "09:00"⟩ ∧
      findRecord "2024-03-01"
          (insert_connection "2024-03-01" "08:30" [ConnectionLog.mk "2024-03-01" "09:00" "09:00"]) =
        some ⟨"2024-03-01", sqliteMin "09:00" "08:30", sqliteMax "09:00" "08:30"⟩) :=
  ⟨⟨by decide, (upsert_spec [] "2024-03-01" "09:00").1 (by decide)⟩,
   ⟨by decide,
    (upsert_spec [ConnectionLog.mk "2024-03-01" "09:00" "09:00"] "2024-03-01" "08:30").2
      ⟨"2024-03-01", "09:00", "09:00"⟩ (by decide)⟩⟩

/-- C2: for one date, a non-empty sequence of upserts applied to a store
with no row for that date is order-independent (any permutation yields
the same store), and the resulting row holds the MIN and MAX of all the
times; in particular "09:00" then "08:30" gives earliest "08:30" and
latest "09:00". -/
theorem upsert_order_independent (d t : String) (ts ts2 : List String) (db : Store)
    (hperm : List.Perm (t :: ts) ts2) (h : findRecord d db = none) :
    applyTimes d ts2 db = applyTimes d (t :: ts) db ∧
    findRecord d (applyTimes d (t :: ts) db) =
      some ⟨d, ts.foldl sqliteMin t, ts.foldl sqliteMax t⟩ := by
  constructor
  · exact (applyTimes_perm d hperm db).symm
  · rw [applyTimes_cons]
    exact applyTimes_find ts (insert_connection d t db) t t (findRecord_insert_none h)

theorem upsert_order_independent_witness :
    applyTimes "2024-03-01" ["08:30", "09:00"] [] =
      applyTimes "2024-03-01" ["09:00", "08:30"] [] ∧
    findRecord "2024-03-01" (applyTimes "2024-03-01" ["09:00", "08:30"] []) =
      some ⟨"2024-03-01", "08:30", "09:00"⟩ := by
  have h := upsert_order_independent "2024-03-01" "09:00" ["08:30"] ["08:30", "09:00"] []
    (List.Perm.swap "08:30" "09:00" []) (by decide)
  exact ⟨h.1, by rw [h.2]; decide⟩

/-- C3: the upsert is idempotent — applying `insert_connection` with the
same (date, time) two or more times consecutively leaves the store in
the state reached after the first application. -/
theorem upsert_idempotent (db : Store) (d t : String) (k : Nat) :
    Nat.iterate (insert_connection d t) (k + 2) db = insert_connection d t db := by
  rw [Function.iterate_succ_apply, iterate_insert_aux, insert_connection_idem]

/-- C4: every store state reachable from the empty table by upserts is
well-formed — at most one row per date (the PRIMARY KEY invariant) and
`earliest <= latest` under BINARY collation on every row. -/
theorem reachable_wellFormed (ops : List (String × String)) :
    WellFormed (applyOps ops) := by
  suffices h : ∀ (db : Store), WellFormed db →
      WellFormed (ops.foldl (fun db p => insert_connection p.1 p.2 db) db) from
    h [] ⟨by simp, by simp⟩
  induction ops with
  | nil => intro db h; exact h
  | cons p ps ih =>
    intro db h
    exact ih (insert_connection p.1 p.2 db) (wellFormed_insert p.1 p.2 h)

/-- C5: `get_connection_log` returns exactly the stored rows (as a
permutation), and on any table satisfying the PRIMARY KEY constraint the
result is strictly descending by date, hence has no duplicate dates. -/
theorem list_sorted_desc (db : Store) :
    List.Perm (get_connection_log db) db ∧
    ((db.map ConnectionLog.date).Nodup →
      (get_connection_log db).Pairwise (fun a b => strLe a.date b.date = false) ∧
      ((get_connection_log db).map ConnectionLog.date).Nodup) := by
  refine ⟨get_connection_log_perm db, fun hnd => ?_⟩
  have hperm := get_connection_log_perm db
  have hnd2 : ((get_connection_log db).map ConnectionLog.date).Nodup :=
    ((hperm.map ConnectionLog.date).nodup_iff).mpr hnd
  refine ⟨?_, hnd2⟩
  have hne : (get_connection_log db).Pairwise (fun a b => a.date ≠ b.date) := by
    rw [List.Nodup, List.pairwise_map] at hnd2
    exact hnd2
  have hand := (get_connection_log_sorted db).and hne
  refine hand.imp ?_
  intro a b hab
  cases hle : strLe a.date b.date with
  | false => rfl
  | true => exact absurd (strLe_antisymm hle hab.1) hab.2

theorem list_sorted_desc_witness :
    (([ConnectionLog.mk "2024-03-01" "08:01" "17:45",
       ConnectionLog.mk "2024-03-02" "09:00" "09:30"] : Store).map
        ConnectionLog.date).Nodup ∧
    List.Perm
      (get_connection_log [ConnectionLog.mk "2024-03-01" "08:01" "17:45",
        ConnectionLog.mk "2024-03-02" "09:00" "09:30"])
      [ConnectionLog.mk "2024-03-01" "08:01" "17:45",
        ConnectionLog.mk "2024-03-02" "09:00" "09:30"] ∧
    (get_connection_log [ConnectionLog.mk "2024-03-01" "08:01" "17:45",
        ConnectionLog.mk "2024-03-02" "09:00" "09:30"]).Pairwise
      (fun a b => strLe a.date b.date = false) ∧
    ((get_connection_log [ConnectionLog.mk "2024-03-01" "08:01" "17:45",
        ConnectionLog.mk "2024-03-02" "09:00" "09:30"]).map
        ConnectionLog.date).Nodup :=
  ⟨by decide,
   (list_sorted_desc [ConnectionLog.mk "2024-03-01" "08:01" "17:45",
      ConnectionLog.mk "2024-03-02" "09:00" "09:30"]).1,
   ((list_sorted_desc [ConnectionLog.mk "2024-03-01" "08:01" "17:45",
      ConnectionLog.mk "2024-03-02" "09:00" "09:30"]).2 (by decide)).1,
   ((list_sorted_desc [ConnectionLog.mk "2024-03-01" "08:01" "17:45",
      ConnectionLog.mk "2024-03-02" "09:00" "09:30"]).2 (by decide)).2⟩

/-- C10: the upsert for one date is a frame operation — rows of every
other date are untouched (lookup unchanged), and the sub-list of rows of
other dates is exactly preserved (nothing created or deleted). -/
theorem upsert_frame (db : Store) (d t d2 : String) (h : d2 ≠ d) :
    findRecord d2 (insert_connection d t db) = findRecord d2 db ∧
    (insert_connection d t db).filter (fun r => !decide (r.date = d)) =
      db.filter (fun r => !decide (r.date = d)) :=
  ⟨findRecord_insert_ne h, filter_insert_eq db d t⟩

theorem upsert_frame_witness :
    findRecord "2024-02-29"
        (insert_connection "2024-03-01" "08:00"
          [ConnectionLog.mk "2024-02-29" "07:00" "08:00"]) =
      findRecord "2024-02-29" [ConnectionLog.mk "2024-02-29" "07:00" "08:00"] ∧
    (insert_connection "2024-03-01" "08:00"
        [ConnectionLog.mk "2024-02-29" "07:00" "08:00"]).filter
        (fun r => !decide (r.date = "2024-03-01")) =
      [ConnectionLog.mk "2024-02-29" "07:00" "08:00"].filter
        (fun r => !decide (r.date = "2024-03-01")) :=
  upsert_frame [ConnectionLog.mk "2024-02-29" "07:00" "08:00"]
    "2024-03-01" "08:00" "2024-02-29" (by decide)

/-- C6: on a tick whose OS query parses to a network name, the upsert is
run with the tick's date and time exactly when the name equals the
hard-coded target, by case-sensitive string equality; consequently a row
for a date exists in a table built by the loop from empty only if some
tick observed the target name on that date. -/
theorem sampler_match_iff :
    (∀ (cmd : Option CmdOutput) (s : String) (se : Option String)
        (d t : String) (db : Store),
      get_current_wifi_ssid cmd = .result (some s) →
      check_wifi_connection cmd se d t db =
        (if s = target_ssid then
          (match se with
            | none => StepResult.ok (insert_connection d t db)
            | some e => StepResult.err db e)
          else .ok db)) ∧
    (∀ (ticks : List TickInput) (D : String),
      (findRecord D (run_loop ticks []).1).isSome = true →
      ∃ inp ∈ ticks,
        get_current_wifi_ssid inp.cmd = .result (some target_ssid) ∧
          inp.date = D) := by
  constructor
  · intro cmd s se d t db hq
    simp only [check_wifi_connection, hq]
  · intro ticks D h
    rcases run_loop_record_source ticks [] D h with hl | hr
    · simp [findRecord] at hl
    · exact hr

theorem sampler_match_iff_witness :
    check_wifi_connection (some ⟨true, "Current Wi-Fi Network: EDUROAM", ""⟩)
        none "2024-03-01" "08:01" [] = .ok [] ∧
    ∃ inp ∈ [TickInput.mk (some ⟨true, "Current Wi-Fi Network: eduroam", ""⟩)
        none "2024-03-01" "08:01"],
      get_current_wifi_ssid inp.cmd = .result (some target_ssid) ∧
        inp.date = "2024-03-01" := by
  constructor
  · have h := sampler_match_iff.1 (some ⟨true, "Current Wi-Fi Network: EDUROAM", ""⟩)
      "EDUROAM" none "2024-03-01" "08:01" [] (by decide)
    rw [h]
    decide
  · exact sampler_match_iff.2
      [TickInput.mk (some ⟨true, "Current Wi-Fi Network: eduroam", ""⟩)
        none "2024-03-01" "08:01"] "2024-03-01" (by decide)

/-- C7 counterexample: a tick on which the `networksetup` command fails
to execute does not merely get logged and skipped — the `.expect` panics
and the spawned polling thread dies, so the next tick (whose query alone
would have produced a row) never runs: only one query executes and the
table stays empty, while the same second tick run alone does produce a
row. -/
theorem query_exec_failure_kills_loop :
    run_loop [TickInput.mk none none "2024-03-01" "08:00",
        TickInput.mk (some ⟨true, "Current Wi-Fi Network: eduroam", ""⟩)
          none "2024-03-01" "08:01"] [] =
      ([], 1, some "Failed to execute networksetup command") ∧
    run_loop [TickInput.mk (some ⟨true, "Current Wi-Fi Network: eduroam", ""⟩)
        none "2024-03-01" "08:01"] [] =
      ([ConnectionLog.mk "2024-03-01" "08:01" "08:01"], 1, none) := by
  decide

/-- C7 amended: for OS-query failures in which the command itself
executes — non-success exit status (adapter missing, permission denied)
or output from which no network name is parsed — the sampler logs,
takes no other action for that tick (the call returns `Ok` with the
table unchanged, no panic), and the loop proceeds to run the remaining
ticks on the same table, so no such cycle terminates the loop; but when
the command cannot be executed at all, the code panics via `.expect`
and the sampler thread terminates, so that failure is not survived. -/
theorem query_failure_handling_amended (o : CmdOutput) (se : Option String)
    (d t : String) (db : Store) (rest : List TickInput)
    (h : o.success = false ∨ parse_ssid o.stdout = none) :
    check_wifi_connection (some o) se d t db = .ok db ∧
    run_loop (TickInput.mk (some o) se d t :: rest) db =
      ((run_loop rest db).1, (run_loop rest db).2.1 + 1, (run_loop rest db).2.2) := by
  have hc : check_wifi_connection (some o) se d t db = .ok db := by
    rcases h with hs | hp
    · simp [check_wifi_connection, get_current_wifi_ssid, hs]
    · cases hs : o.success with
      | false => simp [check_wifi_connection, get_current_wifi_ssid, hs]
      | true => simp [check_wifi_connection, get_current_wifi_ssid, hs, hp]
  exact ⟨hc, by simp [run_loop, hc]⟩

theorem query_failure_handling_amended_witness :
    (check_wifi_connection (some ⟨false, "", "Err"⟩) none
        "2024-03-01" "08:00" [] = .ok [] ∧
      run_loop [TickInput.mk (some ⟨false, "", "Err"⟩) none "2024-03-01" "08:00"] [] =
        ((run_loop [] ([] : Store)).1, (run_loop [] ([] : Store)).2.1 + 1,
          (run_loop [] ([] : Store)).2.2)) ∧
    (check_wifi_connection
        (some ⟨true, "You are not associated with an AirPort network.", ""⟩)
        none "2024-03-01" "08:00" [] = .ok [] ∧
      run_loop [TickInput.mk
            (some ⟨true, "You are not associated with an AirPort network.", ""⟩)
            none "2024-03-01" "08:00",
          TickInput.mk (some ⟨true, "Current Wi-Fi Network: eduroam", ""⟩)
            none "2024-03-01" "08:01"] [] =
        ((run_loop [TickInput.mk (some ⟨true, "Current Wi-Fi Network: eduroam", ""⟩)
            none "2024-03-01" "08:01"] []).1,
         (run_loop [TickInput.mk (some ⟨true, "Current Wi-Fi Network: eduroam", ""⟩)
            none "2024-03-01" "08:01"] []).2.1 + 1,
         (run_loop [TickInput.mk (some ⟨true, "Current Wi-Fi Network: eduroam", ""⟩)
            none "2024-03-01" "08:01"] []).2.2)) :=
  ⟨query_failure_handling_amended ⟨false, "", "Err"⟩ none "2024-03-01" "08:00" [] []
      (Or.inl (by decide)),
   query_failure_handling_amended
      ⟨true, "You are not associated with an AirPort network.", ""⟩ none
      "2024-03-01" "08:00" []
      [TickInput.mk (some ⟨true, "Current Wi-Fi Network: eduroam", ""⟩)
        none "2024-03-01" "08:01"]
      (Or.inr (by decide))⟩

/-- C8: when the storage operation fails on a tick whose query matched
the target, `check_wifi_connection` returns the error (no crash, table
unchanged), the loop prints it and continues, and the remaining ticks —
starting with the next one's OS query — still execute. -/
theorem storage_failure_keeps_loop (o : CmdOutput) (e d t : String) (db : Store)
    (rest : List TickInput) (hs : o.success = true)
    (hp : parse_ssid o.stdout = some target_ssid) :
    check_wifi_connection (some o) (some e) d t db = .err db e ∧
    run_loop (TickInput.mk (some o) (some e) d t :: rest) db =
      ((run_loop rest db).1, (run_loop rest db).2.1 + 1, (run_loop rest db).2.2) := by
  have hc : check_wifi_connection (some o) (some e) d t db = .err db e := by
    simp [check_wifi_connection, get_current_wifi_ssid, hs, hp]
  exact ⟨hc, by simp [run_loop, hc]⟩

theorem storage_failure_keeps_loop_witness :
    check_wifi_connection (some ⟨true, "Current Wi-Fi Network: eduroam", ""⟩)
        (some "database is locked") "2024-03-01" "08:00" [] =
      .err [] "database is locked" ∧
    run_loop [TickInput.mk (some ⟨true, "Current Wi-Fi Network: eduroam", ""⟩)
          (some "database is locked") "2024-03-01" "08:00",
        TickInput.mk (some ⟨true, "Current Wi-Fi Network: eduroam", ""⟩)
          none "2024-03-01" "08:01"] [] =
      ((run_loop [TickInput.mk (some ⟨true, "Current Wi-Fi Network: eduroam", ""⟩)
          none "2024-03-01" "08:01"] []).1,
       (run_loop [TickInput.mk (some ⟨true, "Current Wi-Fi Network: eduroam", ""⟩)
          none "2024-03-01" "08:01"] []).2.1 + 1,
       (run_loop [TickInput.mk (some ⟨true, "Current Wi-Fi Network: eduroam", ""⟩)
          none "2024-03-01" "08:01"] []).2.2) :=
  storage_failure_keeps_loop ⟨true, "Current Wi-Fi Network: eduroam", ""⟩
    "database is locked" "2024-03-01" "08:00" []
    [TickInput.mk (some ⟨true, "Current Wi-Fi Network: eduroam", ""⟩)
      none "2024-03-01" "08:01"] (by decide) (by decide)

/-- C9: on zero-padded 24-hour "HH:MM" strings produced by the "%H:%M"
format, lexicographic (BINARY) string comparison agrees with
chronological comparison of the times within a day — the homomorphism
the upsert's MIN/MAX relies on. -/
theorem time_string_order_iso (h1 m1 h2 m2 : Nat) (hh1 : h1 < 24) (hm1 : m1 < 60)
    (hh2 : h2 < 24) (hm2 : m2 < 60) :
    strLe (fmtTime h1 m1) (fmtTime h2 m2) = true ↔ h1 * 60 + m1 ≤ h2 * 60 + m2 := by
  have e : strLe (fmtTime h1 m1) (fmtTime h2 m2) =
      charsLe
        (digitChar (h1 / 10) :: digitChar (h1 % 10) ::
          (':' :: digitChar (m1 / 10) :: digitChar (m1 % 10) :: []))
        (digitChar (h2 / 10) :: digitChar (h2 % 10) ::
          (':' :: digitChar (m2 / 10) :: digitChar (m2 % 10) :: [])) := rfl
  rw [e, charsLe_two_digits h1 h2 (by omega) (by omega), charsLe_colon,
    charsLe_two_digits m1 m2 (by omega) (by omega)]
  by_cases hA : h1 < h2
  · simp [hA]
    omega
  · by_cases hB : h2 < h1
    · simp [hA, hB]
      omega
    · by_cases hC : m1 < m2
      · simp [hA, hB, hC]
        omega
      · by_cases hD : m2 < m1
        · simp [hA, hB, hC, hD]
          omega
        · simp [hA, hB, hC, hD, charsLe]
          omega

theorem time_string_order_iso_witness :
    fmtTime 8 30 = "08:30" ∧ fmtTime 9 0 = "09:00" ∧
    strLe (fmtTime 8 30) (fmtTime 9 0) = true ∧ 8 * 60 + 30 ≤ 9 * 60 + 0 :=
  ⟨by decide, by decide,
   (time_string_order_iso 8 30 9 0 (by decide) (by decide) (by decide)
      (by decide)).mpr (by decide),
   by decide⟩
